import Mathlib

/-!
Verification development for the PDF book-analysis script (`read_books.py`).

The script iterates over PDF documents, sends each page's text to a language
model, parses the response as lenient JSON, appends extracted knowledge items
to a per-document knowledge file, and periodically writes markdown summaries.

The embedding below models:
  * JSON-like values (`JValue`) as produced by `json5.loads`,
  * Python exceptions relevant to the script (`PyError`),
  * the filesystem slice the script touches (`FS`): the knowledge-bases
    directory and the summaries directory,
  * each function of the script (`save_knowledge_base`, `process_page`,
    `load_existing_knowledge`, `analyze_knowledge_base`, `setup_directories`,
    `save_summary`) and the per-document driver loop of `main`.

External calls (the model API, `json5.loads`) are parameters of the
corresponding definitions, so theorems quantify over their behaviour.
-/

set_option linter.unusedVariables false

namespace ReadBooks

/-- JSON-like values: what `json5.loads` returns and what knowledge files hold.
Numbers are modelled as integers (no claim involves fractional values). -/
inductive JValue where
  | null
  | bool (b : Bool)
  | num (n : Int)
  | str (s : String)
  | arr (items : List JValue)
  | obj (fields : List (String × JValue))

/-- Python exception classes the script can raise or catch.
`jsonDecodeError` is `json.JSONDecodeError`, a subclass of `ValueError`;
`apiError` stands for the `google.api_core` exception classes raised by the
model client on transport failures, which are not `ValueError` subclasses. -/
inductive PyError where
  | valueError (msg : String)
  | jsonDecodeError (msg : String)
  | keyError (msg : String)
  | typeError (msg : String)
  | attributeError (msg : String)
  | isADirectoryError (msg : String)
  | apiError (msg : String)
  deriving Repr, DecidableEq

/-- Which exceptions an `except json.JSONDecodeError` handler catches. -/
def PyError.caughtByJsonDecodeHandler : PyError → Bool
  | .jsonDecodeError _ => true
  | _ => false

/-- Which exceptions an `except ValueError` handler catches
(`json.JSONDecodeError` subclasses `ValueError`). -/
def PyError.isValueErrorClass : PyError → Bool
  | .valueError _ => true
  | .jsonDecodeError _ => true
  | _ => false

/-- Python `str.replace` on character lists: replace all non-overlapping
occurrences of `pat` by `rep`, scanning left to right. The first argument is
recursion fuel (structural recursion keeps the function kernel-reducible);
each step consumes at least one character, so fuel ≥ the list length makes the
fuel-exhausted branch unreachable. -/
def replCharsAux (pat rep : List Char) : Nat → List Char → List Char
  | 0, s => s
  | _ + 1, [] => []
  | fuel + 1, c :: cs =>
    if pat ≠ [] ∧ pat.isPrefixOf (c :: cs) then
      rep ++ replCharsAux pat rep fuel ((c :: cs).drop pat.length)
    else
      c :: replCharsAux pat rep fuel cs

/-- Python `str.replace`: replace all non-overlapping occurrences. -/
def pyReplace (s pat rep : String) : String :=
  ⟨replCharsAux pat.data rep.data s.data.length s.data⟩

/-- `pdf_name.replace(".pdf", "")`: the per-document file stem. -/
def pdfStem (pdf_name : String) : String := pyReplace pdf_name ".pdf" ""

/-- Helper for `wordCount`: count maximal runs of non-whitespace characters;
the flag records whether we are inside a run. -/
def wcAux : List Char → Bool → Nat
  | [], _ => 0
  | c :: cs, inWord =>
    if c.isWhitespace then wcAux cs false
    else (if inWord then 0 else 1) + wcAux cs true

/-- Number of words of a string as computed by Python `len(s.split())`:
`str.split()` with no argument splits on whitespace runs and drops empties. -/
def wordCount (s : String) : Nat := wcAux s.data false

/-- First-match association-list lookup (Python `dict` access on the
well-formed objects appearing in this development). -/
def assocGet {α : Type} : List (String × α) → String → Option α
  | [], _ => none
  | (k, v) :: rest, key => if k = key then some v else assocGet rest key

/-- Association-list update: overwrite the binding of `k` (a file write to an
existing path), or append a new binding (creating the file). -/
def setEntry {α : Type} : List (String × α) → String → α → List (String × α)
  | [], k, v => [(k, v)]
  | (k', v') :: rest, k, v =>
    if k' = k then (k, v) :: rest else (k', v') :: setEntry rest k v

/-- Python `dict.get(key, default)`. -/
def dictGet (fields : List (String × JValue)) (key : String) (deflt : JValue) : JValue :=
  (assocGet fields key).getD deflt

/-- Python truthiness of a JSON value. -/
def pyTruthy : JValue → Bool
  | .null => false
  | .bool b => b
  | .num n => n != 0
  | .str s => s != ""
  | .arr items => !items.isEmpty
  | .obj fields => !fields.isEmpty

mutual

/-- Python `str()`/`repr()` rendering of a JSON value, used only to build the
summarization prompt (string escaping inside `repr` is simplified; no theorem
inspects prompt text). -/
def pyRepr : JValue → String
  | .null => "None"
  | .bool b => cond b "True" "False"
  | .num n => toString n
  | .str s => "\x27" ++ s ++ "\x27"
  | .arr items => "[" ++ String.intercalate ", " (pyReprList items) ++ "]"
  | .obj fields => "\x7b" ++ String.intercalate ", " (pyReprFields fields) ++ "\x7d"

/-- `repr` of each element of a list. -/
def pyReprList : List JValue → List String
  | [] => []
  | v :: vs => pyRepr v :: pyReprList vs

/-- `repr` of each `key: value` pair of a dict. -/
def pyReprFields : List (String × JValue) → List String
  | [] => []
  | (k, v) :: fs => ("\x27" ++ k ++ "\x27: " ++ pyRepr v) :: pyReprFields fs

end

/-- Python `str(item)`: a string is rendered as itself, other values by `repr`. -/
def pyStr : JValue → String
  | .str s => s
  | v => pyRepr v

/-- The page-analysis prompt of `process_page` (the instructional text followed
by the page text; rendered without the source's leading indentation, which no
theorem depends on). -/
def pagePrompt (page_text : String) : String :=
  "Analyze this page as if you\x27re studying from a book.\n\n" ++
  "SKIP content if the page contains:\n- Table of contents\n- Chapter listings\n" ++
  "- Index pages\n- Blank pages\n- Copyright information\n- Publishing details\n" ++
  "- References or bibliography\n- Acknowledgments\n\n" ++
  "DO extract knowledge if the page contains:\n- Preface content that explains important concepts\n" ++
  "- Actual educational content\n- Key definitions and concepts\n- Important arguments or theories\n" ++
  "- Examples and case studies\n- Significant findings or conclusions\n- Methodologies or frameworks\n" ++
  "- Critical analyses or interpretations\n\n" ++
  "For valid content:\n- Set has_content to true\n- Extract detailed, learnable knowledge points\n" ++
  "- Include important quotes or key statements\n- Capture examples with their context\n" ++
  "- Preserve technical terms and definitions\n\n" ++
  "For pages to skip:\n- Set has_content to false\n- Return empty knowledge list\n\n" ++
  "Page text: " ++ page_text ++ "\n\n" ++
  "Return a valid JSON object with the following keys:\n" ++
  "- has_content (boolean): true if the page contains relevant content, false otherwise.\n" ++
  "- knowledge (list): A list of knowledge points extracted from the page. The list should be empty if has_content is false.\n" ++
  "Ensure the JSON is valid and can be parsed by Python\x27s json.loads function.\n"

/-- The summarization prompt of `analyze_knowledge_base`: instructional text,
the `str()` of every knowledge item joined by newlines, and a trailer. -/
def summaryPrompt (knowledge_base : List JValue) : String :=
  "Create a comprehensive summary of the provided content in a concise but detailed way, using markdown format.\n\n" ++
  "Use markdown formatting:\n- ## for main sections\n- ### for subsections\n- Bullet points for lists\n" ++
  "- `code blocks` for any code or formulas\n- **bold** for emphasis\n- *italic* for terminology\n" ++
  "- > blockquotes for important notes\n\n" ++
  "Return only the markdown summary, nothing else. Do not say \x27here is the summary\x27 or anything like that before or after\n\n" ++
  "Analyze this content:\n" ++
  String.intercalate "\n" (knowledge_base.map pyStr) ++
  "\n\nReturn only the markdown summary, nothing else. Do not include any JSON.\n"

/-- An entry of the knowledge-bases directory. `setup_directories` unlinks only
files, so a (user-created) subdirectory survives it; `open()` on a directory
raises `IsADirectoryError`. -/
inductive KEntry where
  | file (content : JValue)
  | directory

/-- Whether an entry is a subdirectory. -/
def KEntry.isDir : KEntry → Bool
  | .directory => true
  | .file _ => false

/-- The filesystem slice the script touches: the knowledge-bases directory
(`book_analysis/knowledge_bases`) and the summaries directory
(`book_analysis/summaries`). Keys are filenames relative to their directory;
summary entries are plain files (name, content). -/
structure FS where
  knowledge : List (String × KEntry)
  summaries : List (String × String)

/-- Filename of the per-document knowledge file:
`f"{pdf_name.replace('.pdf', '')}_knowledge.json"`. -/
def knowledgePath (pdf_name : String) : String := pdfStem pdf_name ++ "_knowledge.json"

/-- `save_knowledge_base`: overwrite the per-document knowledge file with the
JSON document `\x7b"knowledge": knowledge_base\x7d`. -/
def save_knowledge_base (knowledge_base : List JValue) (pdf_name : String) (fs : FS) : FS :=
  { fs with
      knowledge := setEntry fs.knowledge (knowledgePath pdf_name)
        (.file (.obj [("knowledge", .arr knowledge_base)])) }

/-- `load_existing_knowledge`: return `[]` when the per-document file does not
exist, otherwise `json.load` the file and index `data['knowledge']`.
Error cases mirror Python: a directory at that path raises `IsADirectoryError`
from `open()`; a non-object document raises `TypeError` at `data['knowledge']`;
an object without the key raises `KeyError`. A `'knowledge'` value that is not
a list is modelled as a `TypeError` (the script's own writes always store a
list there, so this case is outside the reachable states used by theorems). -/
def load_existing_knowledge (fs : FS) (pdf_name : String) : Except PyError (List JValue) :=
  match assocGet fs.knowledge (knowledgePath pdf_name) with
  | none => .ok []
  | some .directory => .error (.isADirectoryError (knowledgePath pdf_name))
  | some (.file v) =>
    match v with
    | .obj fields =>
      match assocGet fields "knowledge" with
      | none => .error (.keyError "knowledge")
      | some (.arr items) => .ok items
      | some _ => .error (.typeError "knowledge value is not a list")
    | _ => .error (.typeError "document is not an object")

/-- The code-fence stripping of `process_page`:
`response.text.replace("```json", "").replace("```", "")`. -/
def stripFences (t : String) : String := pyReplace (pyReplace t "```json" "") "```" ""

/-- `process_page`. `gen` is `model.generate_content` followed by the
`response.text` accessor (its errors, e.g. a `ValueError` on a blocked
response, are raised before the `try` block and so propagate). `json5_loads`
is the lenient parser `json5.loads`. The `try` block parses the stripped
response; its `except` clause catches only `json.JSONDecodeError`, in which
case the knowledge base is left unchanged.  On a caught error or successful
parse, `save_knowledge_base` persists the (possibly unchanged) knowledge list
and the function returns it together with the updated filesystem. -/
def process_page (gen : String → Except PyError String)
    (json5_loads : String → Except PyError JValue)
    (page_text : String) (current_knowledge : List JValue) (pdf_name : String)
    (fs : FS) : Except PyError (List JValue × FS) :=
  match gen (pagePrompt page_text) with
  | .error e => .error e
  | .ok responseText =>
    let updatedE : Except PyError (List JValue) :=
      match json5_loads (stripFences responseText) with
      | .error e =>
        if e.caughtByJsonDecodeHandler then .ok current_knowledge else .error e
      | .ok result =>
        match result with
        | .obj fields =>
          let has_content := dictGet fields "has_content" (.bool false)
          let knowledge := dictGet fields "knowledge" (.arr [])
          if pyTruthy has_content then
            match knowledge with
            | .arr items => .ok (current_knowledge ++ items)
            | _ => .error (.typeError "can only concatenate list to list")
          else
            .ok current_knowledge
        | _ => .error (.attributeError "object has no attribute \x27get\x27")
    match updatedE with
    | .error e => .error e
    | .ok updated_knowledge =>
      .ok (updated_knowledge, save_knowledge_base updated_knowledge pdf_name fs)

/-- `analyze_knowledge_base`, instrumented with the number of model calls
made (`0` or `1`) so that theorems can state that no request is issued.
`if not knowledge_base:` skips the call for an empty list; the `try` around
the model call catches `ValueError` only and returns the empty string. -/
def analyze_knowledge_base (gen : String → Except PyError String)
    (knowledge_base : List JValue) (pdf_name : String) : Except PyError (Nat × String) :=
  if knowledge_base.isEmpty then .ok (0, "")
  else
    match gen (summaryPrompt knowledge_base) with
    | .ok text => .ok (1, text)
    | .error e => if e.isValueErrorClass then .ok (1, "") else .error e

/-- `setup_directories`: unlink every *file* in the knowledge-bases and
summaries directories (subdirectories survive), then re-create the
directories. -/
def setup_directories (fs : FS) : FS :=
  { knowledge := fs.knowledge.filter fun e => e.2.isDir
    summaries := [] }

/-- The character for decimal digit `d`. -/
def digitChar (d : Nat) : Char := Char.ofNat (48 + d)

/-- Decimal digits of a natural number, most significant first; structural
recursion on fuel (any fuel > n suffices, since `n / 10 < n` for `n ≥ 10`). -/
def natDecCharsAux : Nat → Nat → List Char
  | 0, _ => []
  | fuel + 1, n =>
    if n < 10 then [digitChar n]
    else natDecCharsAux fuel (n / 10) ++ [digitChar (n % 10)]

/-- Decimal digits of a natural number, most significant first. -/
def natDecChars (n : Nat) : List Char := natDecCharsAux (n + 1) n

/-- Python format spec `:03d`: decimal digits zero-padded to width at least 3. -/
def pad3Chars (n : Nat) : List Char :=
  List.replicate (3 - (natDecChars n).length) '0' ++ natDecChars n

/-- The `_final_` / `_interval_` tag in summary filenames. -/
def tagChars (is_final : Bool) : List Char :=
  if is_final then "_final_".data else "_interval_".data

/-- Summary filename `f"{stem}_{tag}_{n:03d}.md"` for sequence number `n`. -/
def summaryFileName (stem : String) (is_final : Bool) (n : Nat) : String :=
  ⟨stem.data ++ tagChars is_final ++ pad3Chars n ++ ".md".data⟩

/-- Whether a filename matches the glob `<pre>*.md` (the `*` may be empty). -/
def globMatch (preChars : List Char) (name : String) : Bool :=
  preChars.isPrefixOf name.data && ".md".data.isSuffixOf name.data
    && preChars.length + 3 ≤ name.data.length

/-- The fixed part of the summary glob pattern for one document and tag:
`f"{stem}_final_"` or `f"{stem}_interval_"`. -/
def summaryGlobPre (stem : String) (is_final : Bool) : List Char :=
  stem.data ++ tagChars is_final

/-- How many entries of a summaries directory match the document's interval
or final pattern. -/
def matchCount (stem : String) (is_final : Bool) (sums : List (String × String)) : Nat :=
  (sums.filter fun e => globMatch (summaryGlobPre stem is_final) e.1).length

/-- `len(list(SUMMARIES_DIR.glob(...)))`: how many existing summary files
match the document's interval or final pattern. -/
def countMatching (stem : String) (is_final : Bool) (fs : FS) : Nat :=
  matchCount stem is_final fs.summaries

/-- The markdown written by `save_summary`: header with document name and
timestamp, the summary body, and the attribution footer. -/
def markdownContent (pdf_name now summary : String) : String :=
  "# Book Analysis: " ++ pdf_name ++ "\nGenerated on: " ++ now ++ "\n\n" ++ summary ++
    "\n\n---\n*Analysis generated using AI Book Analysis Tool*\n"

/-- `save_summary`: skip entirely when the summary is empty; otherwise count
the existing files matching the document's interval/final pattern, use
count + 1 as the sequence number, and write the markdown file at the
resulting numbered path. `now` is the `datetime.now()` timestamp string. -/
def save_summary (summary : String) (is_final : Bool) (pdf_name : String)
    (now : String) (fs : FS) : FS :=
  if summary = "" then fs
  else
    let stem := pdfStem pdf_name
    let next_number := countMatching stem is_final fs + 1
    let path := summaryFileName stem is_final next_number
    { fs with summaries := setEntry fs.summaries path (markdownContent pdf_name now summary) }

/-- One evaluation of the list-comprehension predicate at `main` lines 267/274:
a dict is kept iff its `point` value (default `""`) has at most 50 words; a
string is kept iff it has at most 50 words; everything else is dropped.
Calling `.split()` on a non-string `point` value raises `AttributeError`. -/
def keepItem : JValue → Except PyError Bool
  | .obj fields =>
    match dictGet fields "point" (.str "") with
    | .str s => .ok (decide (wordCount s ≤ 50))
    | _ => .error (.attributeError "object has no attribute \x27split\x27")
  | .str s => .ok (decide (wordCount s ≤ 50))
  | _ => .ok false

/-- The pre-summarization filter of `main` (the list comprehension at lines
267 and 274), evaluated left to right with the first exception propagating. -/
def filter_knowledge : List JValue → Except PyError (List JValue)
  | [] => .ok []
  | item :: rest =>
    match keepItem item with
    | .error e => .error e
    | .ok b =>
      match filter_knowledge rest with
      | .error e => .error e
      | .ok kept => .ok (if b then item :: kept else kept)

/-- A summarize-and-save step performed by the driver after a page: the page
index, whether it is the final analysis, and the summary text passed to
`save_summary` (the file is written only when the text is nonempty). -/
structure SumEvent where
  page : Nat
  isFinal : Bool
  summary : String

/-- State threaded through the per-document page loop: the in-memory knowledge
list, the filesystem, and the log of summarize-and-save steps. -/
structure LoopSt where
  kb : List JValue
  fs : FS
  events : List SumEvent

/-- One input document: its filename and the result of `fitz.open` (the list
of page texts, or the exception opening it raised). -/
structure Doc where
  name : String
  pages : Except PyError (List String)

/-- The interval-analysis block of `main`'s page loop (lines 261–269):
guarded by the truthiness of `ANALYSIS_INTERVAL`, divisibility of
`page_num + 1`, and not being the final page. On firing: filter the
knowledge base, summarize, and `save_summary` with `is_final=False`. -/
def intervalStep (gen : String → Except PyError String)
    (analysis_interval : Option Nat) (pages_to_process : Nat)
    (pdf_name now : String) (page_num : Nat) (st : LoopSt) :
    LoopSt × Option PyError :=
  match analysis_interval with
  | none => (st, none)
  | some interval_size =>
    if interval_size != 0 then
      if (page_num + 1) % interval_size == 0 && page_num + 1 != pages_to_process then
        match filter_knowledge st.kb with
        | .error e => (st, some e)
        | .ok filtered =>
          match analyze_knowledge_base gen filtered pdf_name with
          | .error e => (st, some e)
          | .ok (_, interval_summary) =>
            ({ st with
                fs := save_summary interval_summary false pdf_name now st.fs
                events := st.events ++ [⟨page_num, false, interval_summary⟩] }, none)
      else (st, none)
    else (st, none)

/-- The final-analysis block of `main`'s page loop (lines 272–276): fires
exactly when `page_num + 1 == pages_to_process`, regardless of interval
alignment; filter, summarize, and `save_summary` with `is_final=True`. -/
def finalStep (gen : String → Except PyError String) (pages_to_process : Nat)
    (pdf_name now : String) (page_num : Nat) (st : LoopSt) :
    LoopSt × Option PyError :=
  if page_num + 1 == pages_to_process then
    match filter_knowledge st.kb with
    | .error e => (st, some e)
    | .ok filtered =>
      match analyze_knowledge_base gen filtered pdf_name with
      | .error e => (st, some e)
      | .ok (_, final_summary) =>
        ({ st with
            fs := save_summary final_summary true pdf_name now st.fs
            events := st.events ++ [⟨page_num, true, final_summary⟩] }, none)
  else (st, none)

/-- The body of `main`'s page loop for one page (lines 254–276): process the
page (which persists the knowledge base), then the interval-analysis block,
then the always-checked final-analysis block. Returns the updated state and
the first uncaught exception, if any; filesystem updates made before an
exception persist. -/
def pageStep (gen : String → Except PyError String)
    (json5_loads : String → Except PyError JValue)
    (analysis_interval : Option Nat) (pages_to_process : Nat)
    (pdf_name now page_text : String) (page_num : Nat) (st : LoopSt) :
    LoopSt × Option PyError :=
  match process_page gen json5_loads page_text st.kb pdf_name st.fs with
  | .error e => (st, some e)
  | .ok (kb', fs') =>
    match intervalStep gen analysis_interval pages_to_process pdf_name now page_num
        ⟨kb', fs', st.events⟩ with
    | (st2, some e) => (st2, some e)
    | (st2, none) => finalStep gen pages_to_process pdf_name now page_num st2

/-- Run a step function over the given page indices, stopping at the first
uncaught exception but keeping the state accumulated so far. -/
def runPages (step : Nat → LoopSt → LoopSt × Option PyError) :
    List Nat → LoopSt → LoopSt × Option PyError
  | [], st => (st, none)
  | i :: rest, st =>
    match step i st with
    | (st', some e) => (st', some e)
    | (st', none) => runPages step rest st'

/-- Processing of one document in `main` (lines 242–282).
`load_existing_knowledge` runs *before* the `try` block, so its exceptions
propagate out and abort the whole batch. Inside the `try`: `fitz.open`, then
the page loop over `range(min(pages_to_process, page_count))` where
`pages_to_process = TEST_PAGES if TEST_PAGES is not None else page_count`.
Any exception inside the `try` is caught at the document boundary and the
document's partial effects are kept. -/
def processDoc (gen : String → Except PyError String)
    (json5_loads : String → Except PyError JValue)
    (analysis_interval test_pages : Option Nat) (now : String)
    (doc : Doc) (fs : FS) : Except PyError (FS × List SumEvent) :=
  match load_existing_knowledge fs doc.name with
  | .error e => .error e
  | .ok knowledge_base =>
    match doc.pages with
    | .error _ => .ok (fs, [])
    | .ok pageTexts =>
      let pages_to_process := test_pages.getD pageTexts.length
      let pageIdx := List.range (min pages_to_process pageTexts.length)
      let r := runPages
        (fun i st => pageStep gen json5_loads analysis_interval pages_to_process
          doc.name now (pageTexts.getD i "") i st)
        pageIdx ⟨knowledge_base, fs, []⟩
      .ok (r.1.fs, r.1.events)

/-- The document loop of `main`: process the documents in order, threading the
filesystem, and collect each document's summarize-and-save steps. -/
def mainLoop (gen : String → Except PyError String)
    (json5_loads : String → Except PyError JValue)
    (analysis_interval test_pages : Option Nat) (now : String) :
    List Doc → FS → Except PyError (FS × List (String × List SumEvent))
  | [], fs => .ok (fs, [])
  | doc :: rest, fs =>
    match processDoc gen json5_loads analysis_interval test_pages now doc fs with
    | .error e => .error e
    | .ok (fs', events) =>
      match mainLoop gen json5_loads analysis_interval test_pages now rest fs' with
      | .error e => .error e
      | .ok (fs'', results) => .ok (fs'', (doc.name, events) :: results)

/-- A full run of `main` (after the startup prompt): `setup_directories`
first, then the document loop. -/
def mainRun (gen : String → Except PyError String)
    (json5_loads : String → Except PyError JValue)
    (analysis_interval test_pages : Option Nat) (now : String)
    (docs : List Doc) (fs : FS) : Except PyError (FS × List (String × List SumEvent)) :=
  mainLoop gen json5_loads analysis_interval test_pages now docs (setup_directories fs)

/-- The condition under which the driver performs an interval analysis after
page `page_num`: `ANALYSIS_INTERVAL` truthy, `(page_num+1) % interval == 0`,
and not the final page (`page_num + 1 != pages_to_process`). -/
def intervalDue (analysis_interval : Option Nat) (pages_to_process page_num : Nat) : Bool :=
  match analysis_interval with
  | none => false
  | some i => i != 0 && (page_num + 1) % i == 0 && page_num + 1 != pages_to_process

/-- The summarize-and-save steps the driver performs after one page, as pairs
(page index, is-final flag). -/
def pageSig (analysis_interval : Option Nat) (pages_to_process page_num : Nat) :
    List (Nat × Bool) :=
  (if intervalDue analysis_interval pages_to_process page_num then [(page_num, false)] else [])
    ++ (if page_num + 1 == pages_to_process then [(page_num, true)] else [])

/-- The summarize-and-save schedule of a whole document: the steps for pages
`0 .. n-1` in order (`n` is the number of loop iterations,
`min(pages_to_process, page_count)`). -/
def eventSig (analysis_interval : Option Nat) (pages_to_process n : Nat) :
    List (Nat × Bool) :=
  (List.range n).flatMap (pageSig analysis_interval pages_to_process)

/-! Specification-side definitions, written from the spec's words, to be
compared with the code-side definitions above. -/

/-- The filter predicate as the spec words it: an item is kept iff its
textual content — the string itself for string items, the `point` value
(default `""`) for record items — has at most 50 words; all other items are
excluded. -/
def specKeep : JValue → Bool
  | .str s => decide (wordCount s ≤ 50)
  | .obj fields =>
    match dictGet fields "point" (.str "") with
    | .str s => decide (wordCount s ≤ 50)
    | _ => false
  | _ => false

/-- An item whose `point` field (when it is a record) holds text, as the
spec's data model prescribes (`point` is free text). On such items the
filter comprehension cannot raise. -/
def pointOk : JValue → Bool
  | .obj fields =>
    match dictGet fields "point" (.str "") with
    | .str _ => true
    | _ => false
  | _ => true

/-! Auxiliary driver-level definitions used by theorems. -/

/-- One invocation of `save_summary`: document name, final flag, summary
text, timestamp. -/
structure SaveOp where
  pdf_name : String
  is_final : Bool
  summary : String
  now : String

/-- A sequence of `save_summary` invocations, in order. -/
def saveRun : List SaveOp → FS → FS
  | [], fs => fs
  | op :: rest, fs => saveRun rest (save_summary op.summary op.is_final op.pdf_name op.now fs)

/-- The summaries directory is consistent with count-based numbering: any file
whose name has the exact numbered form carries a sequence number at most the
number of files matching that document-and-tag pattern. Every state reachable
from an empty summaries directory by `save_summary` calls satisfies this. -/
def NumberingInv (sums : List (String × String)) : Prop :=
  ∀ stem is_final n, summaryFileName stem is_final n ∈ sums.map Prod.fst →
    n ≤ matchCount stem is_final sums

/-! Concrete behaviours of the external calls (`model.generate_content` +
`response.text`, and `json5.loads`), used to instantiate theorems at
concrete scenarios. -/

/-- A model call that returns the given text. -/
def constGen (t : String) : String → Except PyError String := fun _ => .ok t

/-- A model call that raises the given exception. -/
def failGen (e : PyError) : String → Except PyError String := fun _ => .error e

/-- A parser that returns the given value. -/
def constParse (v : JValue) : String → Except PyError JValue := fun _ => .ok v

/-- A parser that raises the given exception, as `json5.loads` does on
unparsable input (its parse errors are `ValueError`s: current releases raise
`json5.lib.JSON5DecodeError`, a `ValueError` subclass, and older ones raise
`ValueError` directly — never `json.JSONDecodeError`). -/
def failParse (e : PyError) : String → Except PyError JValue := fun _ => .error e

/-- A 51-word string, above the summarization filter's 50-word cap. -/
def longText : String := String.intercalate " " (List.replicate 51 "w")

/-- The (page index, is-final) key of a summarize-and-save step. -/
def evKey (e : SumEvent) : Nat × Bool := (e.page, e.isFinal)

/-- The per-document knowledge file currently stores exactly `kb`. -/
def kbFileIs (fs : FS) (pdf_name : String) (kb : List JValue) : Prop :=
  assocGet fs.knowledge (knowledgePath pdf_name) =
    some (.file (.obj [("knowledge", .arr kb)]))

/-- Every knowledge-directory entry is a well-formed knowledge file (as
`save_knowledge_base` writes them): in particular, no subdirectories. -/
def cleanFS (fs : FS) : Prop :=
  ∀ p ∈ fs.knowledge, ∃ kb, p.2 = KEntry.file (.obj [("knowledge", .arr kb)])

/-! ### Theorems -/

/-! Helper lemmas shared by the claim theorems. -/

/-- A write stores its value at its key. -/
theorem assocGet_setEntry_self {α : Type} (l : List (String × α)) (k : String) (v : α) :
    assocGet (setEntry l k v) k = some v := by
  induction l with
  | nil => simp [setEntry, assocGet]
  | cons p t ih =>
    obtain ⟨k', v'⟩ := p
    by_cases h : k' = k
    · simp [setEntry, h, assocGet]
    · simp [setEntry, h, assocGet, ih]

/-- A write to an absent key appends the new entry. -/
theorem setEntry_of_absent {α : Type} (l : List (String × α)) (k : String) (v : α)
    (h : assocGet l k = none) : setEntry l k v = l ++ [(k, v)] := by
  induction l with
  | nil => simp [setEntry]
  | cons p t ih =>
    obtain ⟨k', v'⟩ := p
    by_cases hk : k' = k
    · simp [assocGet, hk] at h
    · simp [assocGet, hk] at h
      simp [setEntry, hk, ih h]

/-- Membership after a write: the new entry or an old one. -/
theorem mem_setEntry {α : Type} (l : List (String × α)) (k : String) (v : α) (p : String × α)
    (h : p ∈ setEntry l k v) : p = (k, v) ∨ p ∈ l := by
  induction l with
  | nil => simpa [setEntry] using h
  | cons q t ih =>
    obtain ⟨k', v'⟩ := q
    by_cases hk : k' = k
    · simp [setEntry, hk] at h
      rcases h with h | h
      · exact Or.inl (by simp [h])
      · exact Or.inr (by simp [h])
    · simp [setEntry, hk] at h
      rcases h with h | h
      · exact Or.inr (by simp [h])
      · rcases ih h with h' | h'
        · exact Or.inl h'
        · exact Or.inr (by simp [h'])

/-- `save_summary` never touches the knowledge directory. -/
theorem save_summary_knowledge (summary : String) (is_final : Bool)
    (pdf_name now : String) (fs : FS) :
    (save_summary summary is_final pdf_name now fs).knowledge = fs.knowledge := by
  unfold save_summary
  split <;> rfl

/-- `save_knowledge_base` never touches the summaries directory. -/
theorem save_knowledge_base_summaries (kb : List JValue) (pdf_name : String) (fs : FS) :
    (save_knowledge_base kb pdf_name fs).summaries = fs.summaries := rfl

/-- Shape of a successful `process_page`: the returned filesystem is the
input one with the returned knowledge list persisted, and the returned list
extends the input list. -/
theorem process_page_ok_spec (gen : String → Except PyError String)
    (j : String → Except PyError JValue) (page_text : String)
    (cur : List JValue) (pdf_name : String) (fs : FS) (kb' : List JValue) (fs' : FS)
    (h : process_page gen j page_text cur pdf_name fs = .ok (kb', fs')) :
    fs' = save_knowledge_base kb' pdf_name fs ∧ cur <+: kb' := by
  unfold process_page at h
  cases hg : gen (pagePrompt page_text) with
  | error e => rw [hg] at h; exact absurd h (by simp)
  | ok rt =>
    rw [hg] at h
    simp only at h
    cases hp : j (stripFences rt) with
    | error e =>
      rw [hp] at h
      by_cases hc : e.caughtByJsonDecodeHandler = true
      · simp [hc] at h
        exact ⟨h.2.symm.trans (by rw [h.1]), h.1 ▸ List.prefix_refl _⟩
      · simp [hc] at h
    | ok result =>
      rw [hp] at h
      cases result with
      | obj fields =>
        simp only at h
        by_cases ht : pyTruthy (dictGet fields "has_content" (.bool false)) = true
        · rw [if_pos ht] at h
          cases hk : dictGet fields "knowledge" (.arr []) with
          | arr items =>
            rw [hk] at h
            simp at h
            exact ⟨h.2.symm.trans (by rw [h.1]), h.1 ▸ List.prefix_append _ _⟩
          | null => rw [hk] at h; exact absurd h (by simp)
          | bool b => rw [hk] at h; exact absurd h (by simp)
          | num n => rw [hk] at h; exact absurd h (by simp)
          | str s => rw [hk] at h; exact absurd h (by simp)
          | obj f => rw [hk] at h; exact absurd h (by simp)
        · rw [if_neg ht] at h
          simp at h
          exact ⟨h.2.symm.trans (by rw [h.1]), h.1 ▸ List.prefix_refl _⟩
      | null => exact absurd h (by simp)
      | bool b => exact absurd h (by simp)
      | num n => exact absurd h (by simp)
      | str s => exact absurd h (by simp)
      | arr xs => exact absurd h (by simp)

/-- On items whose `point` field is textual, the filter comprehension cannot
raise and agrees with the spec-side predicate. -/
theorem keepItem_eq_of_pointOk (item : JValue) (h : pointOk item = true) :
    keepItem item = .ok (specKeep item) := by
  cases item with
  | obj fields =>
    simp only [pointOk] at h
    cases hp : dictGet fields "point" (.str "") with
    | str s => simp [keepItem, specKeep, hp]
    | null => rw [hp] at h; simp at h
    | bool b => rw [hp] at h; simp at h
    | num n => rw [hp] at h; simp at h
    | arr xs => rw [hp] at h; simp at h
    | obj f => rw [hp] at h; simp at h
  | str s => rfl
  | null => rfl
  | bool b => rfl
  | num n => rfl
  | arr xs => rfl

/-- C4: on knowledge lists whose record items carry textual `point` fields
(the spec's data model), the pre-summarization filter succeeds and keeps an
item exactly when its textual content — the string itself, or the `point`
value — has at most 50 words; the kept items are a sublist of the input
(relative order preserved), and membership in the result is exactly
membership in the input plus the 50-word bound. -/
theorem filter_matches_spec :
    ∀ (kb : List JValue), (∀ item ∈ kb, pointOk item = true) →
    filter_knowledge kb = .ok (kb.filter specKeep) ∧
    (kb.filter specKeep).Sublist kb ∧
    (∀ item, item ∈ kb.filter specKeep ↔ item ∈ kb ∧ specKeep item = true) := by
  intro kb h
  refine ⟨?_, List.filter_sublist _, fun item => List.mem_filter⟩
  induction kb with
  | nil => rfl
  | cons x xs ih =>
    have hx : pointOk x = true := h x (by simp)
    have hxs := ih fun item hm => h item (by simp [hm])
    simp only [filter_knowledge, keepItem_eq_of_pointOk x hx, hxs, List.filter_cons]

set_option maxRecDepth 8192 in
/-- Witness for C4 at a concrete list: a short string is kept, a 51-word
string is dropped, a record with a short `point` is kept, and a number is
dropped. -/
theorem filter_matches_spec_witness :
    filter_knowledge
        [JValue.str "a", JValue.str longText,
         JValue.obj [("point", JValue.str "p")], JValue.num 5] =
      .ok [JValue.str "a", JValue.obj [("point", JValue.str "p")]] := by
  have h := filter_matches_spec
    [JValue.str "a", JValue.str longText,
     JValue.obj [("point", JValue.str "p")], JValue.num 5] (by decide)
  exact h.1.trans (by rfl)

/-- The interval-analysis block never changes the in-memory knowledge list
or the knowledge directory (it writes summaries only). -/
theorem intervalStep_shape (gen : String → Except PyError String)
    (ai : Option Nat) (ptp : Nat) (pdf_name now : String) (i : Nat) (st : LoopSt) :
    (intervalStep gen ai ptp pdf_name now i st).1.kb = st.kb ∧
    (intervalStep gen ai ptp pdf_name now i st).1.fs.knowledge = st.fs.knowledge := by
  unfold intervalStep
  split
  · exact ⟨rfl, rfl⟩
  · split
    · split
      · split
        · exact ⟨rfl, rfl⟩
        · split
          · exact ⟨rfl, rfl⟩
          · exact ⟨rfl, save_summary_knowledge _ _ _ _ _⟩
      · exact ⟨rfl, rfl⟩
    · exact ⟨rfl, rfl⟩

/-- The final-analysis block never changes the in-memory knowledge list or
the knowledge directory (it writes summaries only). -/
theorem finalStep_shape (gen : String → Except PyError String)
    (ptp : Nat) (pdf_name now : String) (i : Nat) (st : LoopSt) :
    (finalStep gen ptp pdf_name now i st).1.kb = st.kb ∧
    (finalStep gen ptp pdf_name now i st).1.fs.knowledge = st.fs.knowledge := by
  unfold finalStep
  split
  · split
    · exact ⟨rfl, rfl⟩
    · split
      · exact ⟨rfl, rfl⟩
      · exact ⟨rfl, save_summary_knowledge _ _ _ _ _⟩
  · exact ⟨rfl, rfl⟩

/-- After a page step that raised no uncaught exception, the knowledge file
on disk holds exactly the in-memory knowledge list: `process_page` persisted
it, and the summary blocks do not touch the knowledge directory. -/
theorem pageStep_sync (gen : String → Except PyError String)
    (j : String → Except PyError JValue) (ai : Option Nat) (ptp : Nat)
    (pdf_name now pt : String) (i : Nat) (st st' : LoopSt)
    (h : pageStep gen j ai ptp pdf_name now pt i st = (st', none)) :
    kbFileIs st'.fs pdf_name st'.kb := by
  unfold pageStep at h
  cases hp : process_page gen j pt st.kb pdf_name st.fs with
  | error e => rw [hp] at h; simp at h
  | ok pr =>
    obtain ⟨kb', fs'⟩ := pr
    rw [hp] at h
    simp only at h
    have hshape := process_page_ok_spec _ _ _ _ _ _ _ _ hp
    have hsync1 : kbFileIs fs' pdf_name kb' := by
      rw [hshape.1]
      exact assocGet_setEntry_self _ _ _
    cases hi : intervalStep gen ai ptp pdf_name now i ⟨kb', fs', st.events⟩ with
    | mk st2 oe =>
      rw [hi] at h
      have hish := intervalStep_shape gen ai ptp pdf_name now i ⟨kb', fs', st.events⟩
      rw [hi] at hish
      cases oe with
      | some e => simp at h
      | none =>
        simp only at h
        have hsync2 : kbFileIs st2.fs pdf_name st2.kb := by
          unfold kbFileIs
          rw [hish.2, hish.1]
          exact hsync1
        have hfsh := finalStep_shape gen ptp pdf_name now i st2
        rw [h] at hfsh
        unfold kbFileIs
        rw [hfsh.2, hfsh.1]
        exact hsync2

/-- Once the page loop has run at least one page without an uncaught
exception, the knowledge file is in sync with the in-memory list. -/
theorem runPages_sync (pdf_name : String) (step : Nat → LoopSt → LoopSt × Option PyError)
    (hstep : ∀ i s s', step i s = (s', none) → kbFileIs s'.fs pdf_name s'.kb) :
    ∀ pages st st', pages ≠ [] → runPages step pages st = (st', none) →
    kbFileIs st'.fs pdf_name st'.kb := by
  intro pages
  induction pages with
  | nil => intro st st' hne; exact absurd rfl hne
  | cons i rest ih =>
    intro st st' _ h
    unfold runPages at h
    cases hs : step i st with
    | mk s1 oe =>
      rw [hs] at h
      cases oe with
      | some e => simp at h
      | none =>
        cases rest with
        | nil =>
          unfold runPages at h
          have h1 : s1 = st' := congrArg Prod.fst h
          exact h1 ▸ hstep i st s1 hs
        | cons a t => exact ih s1 st' (by simp) h

/-- Knowledge directories without subdirectories are wiped by setup. -/
theorem setup_directories_clears (fs : FS)
    (h : ∀ e ∈ fs.knowledge, e.2.isDir = false) :
    (setup_directories fs).knowledge = [] := by
  unfold setup_directories
  simp only
  rw [List.filter_eq_nil_iff]
  intro a ha
  simp [h a ha]

/-- C1 (amended): within one run, partial progress is durable — after any
nonempty error-free prefix of the page loop, the per-document knowledge file
holds exactly the accumulated knowledge list. However, a subsequent run of
the program does *not* reload it: `setup_directories` runs before the
document loop and unlinks every file in the knowledge-bases directory, so
(absent stray subdirectories) the restarted run loads an empty knowledge
base and reprocesses pages from index 0 having lost the accumulated items. -/
theorem knowledge_durability_and_restart :
    (∀ gen json5_loads analysis_interval pages_to_process pdf_name now
       (texts : Nat → String) pages st st',
      pages ≠ [] →
      runPages (fun i s => pageStep gen json5_loads analysis_interval pages_to_process
          pdf_name now (texts i) i s) pages st = (st', none) →
      kbFileIs st'.fs pdf_name st'.kb) ∧
    (∀ fs pdf_name, (∀ e ∈ fs.knowledge, e.2.isDir = false) →
      load_existing_knowledge (setup_directories fs) pdf_name = .ok []) := by
  constructor
  · intro gen j ai ptp pdf_name now texts pages st st' hne h
    exact runPages_sync pdf_name _
      (fun i s s' hs => pageStep_sync gen j ai ptp pdf_name now (texts i) i s s' hs)
      pages st st' hne h
  · intro fs pdf_name h
    unfold load_existing_knowledge
    rw [setup_directories_clears fs h]
    rfl

/-- Witness for C1's amended theorem: a one-page error-free run leaves the
knowledge file holding the in-memory list, and a restarted run (setup, then
load) on that filesystem state reloads the empty list. -/
theorem knowledge_durability_and_restart_witness :
    kbFileIs (⟨[("b_knowledge.json",
        .file (.obj [("knowledge", .arr [.str "a"])]))], []⟩ : FS) "b.pdf" [.str "a"] ∧
    load_existing_knowledge
      (setup_directories ⟨[("b_knowledge.json",
        .file (.obj [("knowledge", .arr [.str "a"])]))], []⟩) "b.pdf" = .ok [] := by
  constructor
  · exact knowledge_durability_and_restart.1 (constGen "x")
      (constParse (.obj [("has_content", .bool false), ("knowledge", .arr [])]))
      none 2 "b.pdf" "now" (fun _ => "p") [0]
      ⟨[.str "a"], ⟨[], []⟩, []⟩
      ⟨[.str "a"], ⟨[("b_knowledge.json",
        .file (.obj [("knowledge", .arr [.str "a"])]))], []⟩, []⟩
      (by simp) rfl
  · exact knowledge_durability_and_restart.2
      ⟨[("b_knowledge.json", .file (.obj [("knowledge", .arr [.str "a"])]))], []⟩
      "b.pdf" (by decide)

/-- C1 (counterexample): the restart half of the claim fails. Processing
page 0 appends one item and persists it (the file then holds exactly the
accumulated knowledge), but a subsequent run of the program first runs
`setup_directories`, which deletes the knowledge file, so the restarted run
loads `[]` — not the accumulated `["fact"]`. -/
theorem restart_loses_progress_cex :
    process_page (constGen "x")
        (constParse (.obj [("has_content", .bool true), ("knowledge", .arr [.str "fact"])]))
        "p" [] "b.pdf" ⟨[], []⟩
      = .ok ([.str "fact"],
          ⟨[("b_knowledge.json", .file (.obj [("knowledge", .arr [.str "fact"])]))], []⟩) ∧
    load_existing_knowledge
        ⟨[("b_knowledge.json", .file (.obj [("knowledge", .arr [.str "fact"])]))], []⟩
        "b.pdf" = .ok [.str "fact"] ∧
    load_existing_knowledge
        (setup_directories
          ⟨[("b_knowledge.json", .file (.obj [("knowledge", .arr [.str "fact"])]))], []⟩)
        "b.pdf" = .ok [] ∧
    ([] : List JValue) ≠ [.str "fact"] :=
  ⟨rfl, rfl, rfl, by simp⟩

/-- On success, the interval block appends exactly one interval event when
its guard fires, and none otherwise. -/
theorem intervalStep_events (gen : String → Except PyError String)
    (ai : Option Nat) (ptp : Nat) (pdf_name now : String) (i : Nat) (st st' : LoopSt)
    (h : intervalStep gen ai ptp pdf_name now i st = (st', none)) :
    st'.events.map evKey =
      st.events.map evKey ++ (if intervalDue ai ptp i = true then [(i, false)] else []) := by
  unfold intervalStep at h
  unfold intervalDue
  cases ai with
  | none =>
    injection h with h1 _
    subst h1
    simp
  | some sz =>
    simp only at h ⊢
    by_cases h0 : (sz != 0) = true
    · rw [if_pos h0] at h
      by_cases hc : ((i + 1) % sz == 0 && i + 1 != ptp) = true
      · rw [if_pos hc] at h
        cases hf : filter_knowledge st.kb with
        | error e => rw [hf] at h; simp at h
        | ok filtered =>
          rw [hf] at h
          simp only at h
          cases ha : analyze_knowledge_base gen filtered pdf_name with
          | error e => rw [ha] at h; simp at h
          | ok p =>
            obtain ⟨cnt, s⟩ := p
            rw [ha] at h
            simp only at h
            injection h with h1 _
            subst h1
            simp [evKey, h0, hc]
      · rw [if_neg hc] at h
        injection h with h1 _
        subst h1
        simp only [h0, Bool.true_and]
        simp [hc]
    · rw [if_neg h0] at h
      injection h with h1 _
      subst h1
      simp [h0]

/-- On success, the final block appends exactly one final event when this is
the last page to process, and none otherwise. -/
theorem finalStep_events (gen : String → Except PyError String)
    (ptp : Nat) (pdf_name now : String) (i : Nat) (st st' : LoopSt)
    (h : finalStep gen ptp pdf_name now i st = (st', none)) :
    st'.events.map evKey =
      st.events.map evKey ++ (if i + 1 = ptp then [(i, true)] else []) := by
  unfold finalStep at h
  by_cases hc : (i + 1 == ptp) = true
  · rw [if_pos hc] at h
    cases hf : filter_knowledge st.kb with
    | error e => rw [hf] at h; simp at h
    | ok filtered =>
      rw [hf] at h
      simp only at h
      cases ha : analyze_knowledge_base gen filtered pdf_name with
      | error e => rw [ha] at h; simp at h
      | ok p =>
        obtain ⟨cnt, s⟩ := p
        rw [ha] at h
        simp only at h
        injection h with h1 _
        subst h1
        have : i + 1 = ptp := by simpa using hc
        simp [evKey, this]
  · rw [if_neg hc] at h
    injection h with h1 _
    subst h1
    have : ¬ (i + 1 = ptp) := by simpa using hc
    simp [this]

/-- On success, a page step appends exactly the scheduled summarize-and-save
steps of that page. -/
theorem pageStep_events (gen : String → Except PyError String)
    (j : String → Except PyError JValue) (ai : Option Nat) (ptp : Nat)
    (pdf_name now pt : String) (i : Nat) (st st' : LoopSt)
    (h : pageStep gen j ai ptp pdf_name now pt i st = (st', none)) :
    st'.events.map evKey = st.events.map evKey ++ pageSig ai ptp i := by
  unfold pageStep at h
  cases hp : process_page gen j pt st.kb pdf_name st.fs with
  | error e => rw [hp] at h; simp at h
  | ok pr =>
    obtain ⟨kb', fs'⟩ := pr
    rw [hp] at h
    simp only at h
    cases hi : intervalStep gen ai ptp pdf_name now i ⟨kb', fs', st.events⟩ with
    | mk st2 oe =>
      rw [hi] at h
      cases oe with
      | some e => simp at h
      | none =>
        simp only at h
        have h2 := intervalStep_events gen ai ptp pdf_name now i _ _ hi
        have h3 := finalStep_events gen ptp pdf_name now i _ _ h
        rw [h3, h2]
        simp only
        unfold pageSig
        rw [List.append_assoc]
        congr 1
        congr 1
        by_cases hc : (i + 1 = ptp)
        · simp [hc]
        · simp [hc]

/-- Running the loop without an uncaught exception appends the scheduled
steps of each processed page, in order. -/
theorem runPages_events (ai : Option Nat) (ptp : Nat)
    (step : Nat → LoopSt → LoopSt × Option PyError)
    (hstep : ∀ i s s', step i s = (s', none) →
      s'.events.map evKey = s.events.map evKey ++ pageSig ai ptp i) :
    ∀ pages st st', runPages step pages st = (st', none) →
    st'.events.map evKey = st.events.map evKey ++ pages.flatMap (pageSig ai ptp) := by
  intro pages
  induction pages with
  | nil =>
    intro st st' h
    unfold runPages at h
    injection h with h1 _
    subst h1
    simp
  | cons i rest ih =>
    intro st st' h
    unfold runPages at h
    cases hs : step i st with
    | mk s1 oe =>
      rw [hs] at h
      cases oe with
      | some e => simp at h
      | none =>
        have h1 := ih s1 st' h
        rw [h1, hstep i st s1 hs]
        simp [List.append_assoc]

/-- Membership in one page's scheduled steps. -/
theorem pageSig_mem (ai : Option Nat) (ptp j i : Nat) (b : Bool) :
    (i, b) ∈ pageSig ai ptp j ↔
      (i = j ∧ ((b = false ∧ intervalDue ai ptp j = true) ∨ (b = true ∧ j + 1 = ptp))) := by
  unfold pageSig
  cases b with
  | false =>
    by_cases h1 : intervalDue ai ptp j = true
    · by_cases h2 : (j + 1 == ptp) = true
      · simp [h1, h2, Prod.ext_iff]
      · simp [h1, h2, Prod.ext_iff]
    · by_cases h2 : (j + 1 == ptp) = true
      · simp [h1, h2, Prod.ext_iff]
      · simp [h1, h2, Prod.ext_iff]
  | true =>
    by_cases h1 : intervalDue ai ptp j = true
    · by_cases h2 : (j + 1 == ptp) = true
      · have h2' : j + 1 = ptp := by simpa using h2
        simp [h1, h2, Prod.ext_iff, h2']
      · have h2' : ¬ (j + 1 = ptp) := by simpa using h2
        simp [h1, h2, Prod.ext_iff, h2']
    · by_cases h2 : (j + 1 == ptp) = true
      · have h2' : j + 1 = ptp := by simpa using h2
        simp [h1, h2, Prod.ext_iff, h2']
      · have h2' : ¬ (j + 1 = ptp) := by simpa using h2
        simp [h1, h2, Prod.ext_iff, h2']

/-- C3 (amended): the driver's summary schedule. (1) In any error-free run
of the page loop, the summarize-and-save steps are exactly `eventSig`.
(2) An interval step occurs after page `i` exactly when `i` is among the
processed pages, the interval is configured (truthy), `(i+1) % interval ==
0`, and `i+1` differs from the configured pages-to-process count; a *final*
step occurs after page `i` exactly when `i` is among the processed pages and
`i+1` *equals* the configured pages-to-process count — so when the
configured page limit exceeds the document's page count, no final summary is
produced at all (the original claim's "always after the last page" fails
there). (3) In the spec's scenario — 25 pages, interval 20, no page limit —
the schedule is exactly one interval step after page 20 (index 19) and one
final step after page 25 (index 24). -/
theorem summary_schedule :
    (∀ gen json5_loads analysis_interval pages_to_process pdf_name now
       (texts : Nat → String) n kb fs st',
      runPages (fun i s => pageStep gen json5_loads analysis_interval pages_to_process
          pdf_name now (texts i) i s) (List.range n) ⟨kb, fs, []⟩ = (st', none) →
      st'.events.map evKey = eventSig analysis_interval pages_to_process n) ∧
    (∀ analysis_interval pages_to_process n i,
      ((i, false) ∈ eventSig analysis_interval pages_to_process n ↔
        i < n ∧ intervalDue analysis_interval pages_to_process i = true) ∧
      ((i, true) ∈ eventSig analysis_interval pages_to_process n ↔
        i < n ∧ i + 1 = pages_to_process)) ∧
    eventSig (some 20) 25 25 = [(19, false), (24, true)] := by
  refine ⟨?_, ?_, by decide⟩
  · intro gen j ai ptp pdf_name now texts n kb fs st' h
    have := runPages_events ai ptp _
      (fun i s s' hs => pageStep_events gen j ai ptp pdf_name now (texts i) i s s' hs)
      (List.range n) ⟨kb, fs, []⟩ st' h
    simpa [eventSig] using this
  · intro ai ptp n i
    constructor
    · simp [eventSig, List.mem_flatMap, List.mem_range, pageSig_mem]
      constructor
      · rintro ⟨j, hj, hij, hd⟩
        exact ⟨hij ▸ hj, hij ▸ hd⟩
      · rintro ⟨hn, hd⟩
        exact ⟨i, hn, rfl, hd⟩
    · simp [eventSig, List.mem_flatMap, List.mem_range, pageSig_mem]
      constructor
      · rintro ⟨j, hj, hij, hd⟩
        exact ⟨hij ▸ hj, hij ▸ hd⟩
      · rintro ⟨hn, hd⟩
        exact ⟨i, hn, rfl, hd⟩

/-- Witness for C3's amended theorem: a concrete error-free two-page run
with interval 1 and two pages to process performs exactly an interval step
after page 0 and a final step after page 1. -/
theorem summary_schedule_witness :
    (⟨[], ⟨[("b_knowledge.json", .file (.obj [("knowledge", .arr [])]))], []⟩,
        [⟨0, false, ""⟩, ⟨1, true, ""⟩]⟩ : LoopSt).events.map evKey =
      eventSig (some 1) 2 2 :=
  summary_schedule.1 (constGen "x") (failParse (.jsonDecodeError "bad"))
    (some 1) 2 "b.pdf" "now" (fun _ => "p") 2 [] ⟨[], []⟩
    ⟨[], ⟨[("b_knowledge.json", .file (.obj [("knowledge", .arr [])]))], []⟩,
      [⟨0, false, ""⟩, ⟨1, true, ""⟩]⟩ rfl

/-- C3 (counterexample): with `TEST_PAGES = 2` configured for a one-page
document, the loop processes the document's single page (index 0, the last
page processed) but performs *no* summarize-and-save step at all — the final
check compares against the un-clamped `pages_to_process = 2` — so no final
summary is written after the last page, contradicting the claim's "a final
summary is always written after the last page". The knowledge file in the
result shows page 0 was indeed processed; the event list and the summaries
directory are empty, and the schedule for this configuration is empty. -/
theorem final_summary_missing_cex :
    processDoc (constGen "x") (failParse (.jsonDecodeError "bad")) (some 20) (some 2) "now"
        ⟨"b.pdf", .ok ["page"]⟩ ⟨[], []⟩
      = .ok (⟨[("b_knowledge.json", .file (.obj [("knowledge", .arr [])]))], []⟩, []) ∧
    eventSig (some 20) 2 (min 2 1) = [] :=
  ⟨rfl, rfl⟩

/-! Decimal-rendering lemmas for the sequence numbers of summary files. -/

/-- Digit characters are digits. -/
theorem digitChar_isDigit : ∀ d, d < 10 → (digitChar d).isDigit = true := by decide

/-- Digit characters are distinct. -/
theorem digitChar_inj : ∀ d, d < 10 → ∀ e, e < 10 → digitChar d = digitChar e → d = e := by
  decide

/-- Nonzero digits do not render as `'0'`. -/
theorem digitChar_ne_zero : ∀ d, d < 10 → 1 ≤ d → digitChar d ≠ '0' := by decide

/-- With sufficient fuel, a number below ten renders as one digit. -/
theorem natDecCharsAux_small (fuel n : Nat) (hf : n < fuel) (h : n < 10) :
    natDecCharsAux fuel n = [digitChar n] := by
  cases fuel with
  | zero => omega
  | succ f => simp [natDecCharsAux, h]

/-- With sufficient fuel, a number at least ten renders by recursion. -/
theorem natDecCharsAux_large (fuel n : Nat) (hf : n < fuel + 1) (h : ¬ n < 10) :
    natDecCharsAux (fuel + 1) n = natDecCharsAux fuel (n / 10) ++ [digitChar (n % 10)] := by
  simp [natDecCharsAux, h]

/-- The quotient keeps fitting in one less unit of fuel. -/
theorem div10_fuel (fuel n : Nat) (hf : n < fuel + 1) (h : ¬ n < 10) : n / 10 < fuel := by
  have h1 : n / 10 < n := Nat.div_lt_self (by omega) (by omega)
  omega

/-- The rendering of a number is never empty. -/
theorem natDecCharsAux_ne_nil (fuel n : Nat) (hf : n < fuel) : natDecCharsAux fuel n ≠ [] := by
  cases fuel with
  | zero => omega
  | succ f =>
    by_cases h : n < 10
    · simp [natDecCharsAux, h]
    · simp [natDecCharsAux, h]

/-- Every character of the rendering is a digit. -/
theorem natDecCharsAux_digits (fuel : Nat) :
    ∀ n, n < fuel → ∀ c ∈ natDecCharsAux fuel n, c.isDigit = true := by
  induction fuel with
  | zero => intro n hn; omega
  | succ f ih =>
    intro n hn c hc
    by_cases h : n < 10
    · rw [natDecCharsAux_small _ _ hn h] at hc
      simp at hc
      rw [hc]
      exact digitChar_isDigit n h
    · rw [natDecCharsAux_large f n hn h] at hc
      rcases List.mem_append.mp hc with h1 | h1
      · exact ih (n / 10) (div10_fuel f n hn h) c h1
      · simp at h1
        rw [h1]
        exact digitChar_isDigit _ (Nat.mod_lt _ (by omega))

/-- The leading digit of a positive number is not `'0'`. -/
theorem natDecCharsAux_head_ne_zero (fuel : Nat) :
    ∀ n, n < fuel → 1 ≤ n → (natDecCharsAux fuel n).head? ≠ some '0' := by
  induction fuel with
  | zero => intro n hn; omega
  | succ f ih =>
    intro n hn hpos
    by_cases h : n < 10
    · rw [natDecCharsAux_small _ _ hn h]
      simp
      exact digitChar_ne_zero n h hpos
    · rw [natDecCharsAux_large f n hn h]
      rw [List.head?_append_of_ne_nil _ (natDecCharsAux_ne_nil f (n / 10) (div10_fuel f n hn h))]
      exact ih (n / 10) (div10_fuel f n hn h) (by omega)

/-- Distinct numbers render distinctly (with any sufficient fuels). -/
theorem natDecCharsAux_inj (fuel1 : Nat) :
    ∀ fuel2 n1 n2, n1 < fuel1 → n2 < fuel2 →
    natDecCharsAux fuel1 n1 = natDecCharsAux fuel2 n2 → n1 = n2 := by
  induction fuel1 with
  | zero => intro fuel2 n1 n2 h1; omega
  | succ f ih =>
    intro fuel2 n1 n2 h1 h2 heq
    by_cases ha : n1 < 10
    · by_cases hb : n2 < 10
      · rw [natDecCharsAux_small _ _ h1 ha, natDecCharsAux_small _ _ h2 hb] at heq
        simp at heq
        exact digitChar_inj n1 ha n2 hb heq
      · cases fuel2 with
        | zero => omega
        | succ g =>
          rw [natDecCharsAux_small _ _ h1 ha, natDecCharsAux_large g n2 h2 hb] at heq
          have hne := natDecCharsAux_ne_nil g (n2 / 10) (div10_fuel g n2 h2 hb)
          cases hq : natDecCharsAux g (n2 / 10) with
          | nil => exact absurd hq hne
          | cons a t =>
            rw [hq] at heq
            simp at heq
    · by_cases hb : n2 < 10
      · cases fuel2 with
        | zero => omega
        | succ g =>
          rw [natDecCharsAux_small _ _ h2 hb, natDecCharsAux_large f n1 h1 ha] at heq
          have hne := natDecCharsAux_ne_nil f (n1 / 10) (div10_fuel f n1 h1 ha)
          cases hq : natDecCharsAux f (n1 / 10) with
          | nil => exact absurd hq hne
          | cons a t =>
            rw [hq] at heq
            simp at heq
      · cases fuel2 with
        | zero => omega
        | succ g =>
          rw [natDecCharsAux_large f n1 h1 ha, natDecCharsAux_large g n2 h2 hb] at heq
          obtain ⟨hpre, hdig⟩ := List.append_inj' heq (by simp)
          have hq : n1 / 10 = n2 / 10 :=
            ih g (n1 / 10) (n2 / 10) (div10_fuel f n1 h1 ha) (div10_fuel g n2 h2 hb) hpre
          have hr : n1 % 10 = n2 % 10 := by
            simp at hdig
            exact digitChar_inj _ (Nat.mod_lt _ (by omega)) _ (Nat.mod_lt _ (by omega)) hdig
          omega

/-- The zero-padded rendering consists of digits only. -/
theorem pad3Chars_digits (n : Nat) : ∀ c ∈ pad3Chars n, c.isDigit = true := by
  intro c hc
  unfold pad3Chars at hc
  rcases List.mem_append.mp hc with h1 | h1
  · rw [List.eq_of_mem_replicate h1]
    decide
  · exact natDecCharsAux_digits (n + 1) n (by omega) c h1

/-- The zero-padded rendering has at least three characters. -/
theorem pad3Chars_length (n : Nat) : 3 ≤ (pad3Chars n).length := by
  unfold pad3Chars
  have := natDecCharsAux_ne_nil (n + 1) n (by omega)
  have hlen : 1 ≤ (natDecChars n).length := by
    unfold natDecChars
    cases hq : natDecCharsAux (n + 1) n with
    | nil => exact absurd hq this
    | cons a t => simp
  simp [natDecChars] at hlen ⊢
  omega

/-- A digit-run cannot both extend another and start with `'0'` unless the
numbers agree: zero-padding to width three is injective. -/
theorem pad3Chars_inj (m n : Nat) (h : pad3Chars m = pad3Chars n) : m = n := by
  have base : ∀ a b : Nat, (natDecChars a).length < (natDecChars b).length →
      pad3Chars a = pad3Chars b → False := by
    intro a b hlt heq
    unfold pad3Chars at heq
    have ha1 : 1 ≤ (natDecChars a).length := by
      cases hq : natDecChars a with
      | nil => exact absurd hq (natDecCharsAux_ne_nil (a + 1) a (by omega))
      | cons x t => simp
    rcases List.append_eq_append_iff.mp heq with ⟨w, hw1, hw2⟩ | ⟨w, hw1, hw2⟩
    · -- `natDecChars a = w ++ natDecChars b` contradicts the length order
      have := congrArg List.length hw2
      simp at this
      omega
    · -- `natDecChars b = w ++ natDecChars a` with `w` drawn from the padding
      cases w with
      | nil =>
        simp at hw2
        rw [hw2] at hlt
        omega
      | cons c w' =>
        -- the rendering of `b` is long and starts with the pad character '0'
        have hc : c = '0' := by
          refine List.eq_of_mem_replicate (n := 3 - (natDecChars a).length) ?_
          rw [hw1]
          exact List.mem_append_right _ (by simp)
        have hblen : 2 ≤ (natDecChars b).length := by
          have := congrArg List.length hw2
          simp at this
          omega
        have hb10 : ¬ b < 10 := by
          intro hb
          rw [show natDecChars b = [digitChar b] from
            natDecCharsAux_small _ _ (by omega) hb] at hblen
          simp at hblen
        have hhead : (natDecChars b).head? = some '0' := by
          rw [hw2, hc]
          rfl
        exact natDecCharsAux_head_ne_zero (b + 1) b (by omega) (by omega) hhead
  rcases Nat.lt_trichotomy (natDecChars m).length (natDecChars n).length with hlt | heql | hgt
  · exact absurd h (fun hh => base m n hlt hh)
  · unfold pad3Chars at h
    rw [heql] at h
    have := List.append_cancel_left h
    exact natDecCharsAux_inj (m + 1) (n + 1) m n (by omega) (by omega) this
  · exact absurd h.symm (fun hh => base n m hgt hh)

/-! Summary filename lemmas: the numbered naming scheme is injective. -/

/-- Both tags end in an underscore. -/
theorem tagChars_getLast (b : Bool) : (tagChars b).getLast? = some '_' := by
  cases b <;> rfl

/-- Stripping a (digits-only) suffix after an underscore-terminated part:
if two such decompositions render equally, the parts agree. -/
theorem append_digits_cancel (u v p q : List Char)
    (h : u ++ p = v ++ q)
    (hp : ∀ c ∈ p, c.isDigit = true) (hq : ∀ c ∈ q, c.isDigit = true)
    (hu : u.getLast? = some '_') (hv : v.getLast? = some '_') :
    u = v ∧ p = q := by
  rcases List.append_eq_append_iff.mp h with ⟨w, hw1, hw2⟩ | ⟨w, hw1, hw2⟩
  · -- v = u ++ w and p = w ++ q
    cases w with
    | nil => exact ⟨by simp [hw1], by simpa using hw2⟩
    | cons c w' =>
      exfalso
      obtain ⟨x, hx⟩ := Option.isSome_iff_exists.mp
        (List.getLast?_isSome.mpr (List.cons_ne_nil c w'))
      have hlast : v.getLast? = some x := by
        rw [hw1, List.getLast?_append, hx]
        rfl
      have hxd : x.isDigit = true := by
        refine hp x ?_
        rw [hw2]
        exact List.mem_append_left _ (List.mem_of_mem_getLast? (by rw [hx]; rfl))
      rw [hv] at hlast
      injection hlast with hlast
      rw [← hlast] at hxd
      simp at hxd
  · -- u = v ++ w and q = w ++ p
    cases w with
    | nil => exact ⟨by simp [hw1], by simpa using hw2.symm⟩
    | cons c w' =>
      exfalso
      obtain ⟨x, hx⟩ := Option.isSome_iff_exists.mp
        (List.getLast?_isSome.mpr (List.cons_ne_nil c w'))
      have hlast : u.getLast? = some x := by
        rw [hw1, List.getLast?_append, hx]
        rfl
      have hxd : x.isDigit = true := by
        refine hq x ?_
        rw [hw2]
        exact List.mem_append_left _ (List.mem_of_mem_getLast? (by rw [hx]; rfl))
      rw [hu] at hlast
      injection hlast with hlast
      rw [← hlast] at hxd
      simp at hxd

/-- Stems followed by distinct tags never render equally. -/
theorem tag_append_inj (s1 s2 : List Char) (t1 t2 : Bool)
    (h : s1 ++ tagChars t1 = s2 ++ tagChars t2) : s1 = s2 ∧ t1 = t2 := by
  have hlenF : ("_final_".data).length = 7 := rfl
  have hlenI : ("_interval_".data).length = 10 := rfl
  cases t1 <;> cases t2
  · exact ⟨(List.append_inj' h rfl).1, rfl⟩
  · exfalso
    rcases List.append_eq_append_iff.mp h with ⟨w, _, hw2⟩ | ⟨w, _, hw2⟩
    · -- "_interval_" = w ++ "_final_": the final tag would be its suffix
      have hsuf : "_final_".data <:+ "_interval_".data := ⟨w, hw2.symm⟩
      exact absurd hsuf (by decide)
    · -- "_final_" = w ++ "_interval_": too short
      have hw2' : "_final_".data = w ++ "_interval_".data := hw2
      have := congrArg List.length hw2'
      simp only [List.length_append, hlenF, hlenI] at this
      omega
  · exfalso
    rcases List.append_eq_append_iff.mp h with ⟨w, _, hw2⟩ | ⟨w, _, hw2⟩
    · -- "_final_" = w ++ "_interval_": too short
      have hw2' : "_final_".data = w ++ "_interval_".data := hw2
      have := congrArg List.length hw2'
      simp only [List.length_append, hlenF, hlenI] at this
      omega
    · -- "_interval_" = w ++ "_final_": the final tag would be its suffix
      have hsuf : "_final_".data <:+ "_interval_".data := ⟨w, hw2.symm⟩
      exact absurd hsuf (by decide)
  · exact ⟨(List.append_inj' h rfl).1, rfl⟩

/-- The numbered summary filename determines the stem, the tag, and the
sequence number. -/
theorem summaryFileName_inj (s1 s2 : String) (t1 t2 : Bool) (n1 n2 : Nat)
    (h : summaryFileName s1 t1 n1 = summaryFileName s2 t2 n2) :
    s1 = s2 ∧ t1 = t2 ∧ n1 = n2 := by
  unfold summaryFileName at h
  injection h with hd
  obtain ⟨hd1, _⟩ := List.append_inj' hd rfl
  have hu : (s1.data ++ tagChars t1).getLast? = some '_' := by
    rw [List.getLast?_append, tagChars_getLast]
    rfl
  have hv : (s2.data ++ tagChars t2).getLast? = some '_' := by
    rw [List.getLast?_append, tagChars_getLast]
    rfl
  obtain ⟨huv, hpq⟩ := append_digits_cancel _ _ _ _ hd1
    (pad3Chars_digits n1) (pad3Chars_digits n2) hu hv
  obtain ⟨hs, ht⟩ := tag_append_inj _ _ _ _ huv
  refine ⟨?_, ht, pad3Chars_inj _ _ hpq⟩
  cases s1
  cases s2
  exact congrArg String.mk hs

/-- A numbered summary filename matches its own document-and-tag glob. -/
theorem globMatch_self (stem : String) (is_final : Bool) (n : Nat) :
    globMatch (summaryGlobPre stem is_final) (summaryFileName stem is_final n) = true := by
  unfold globMatch summaryGlobPre summaryFileName
  simp only [Bool.and_eq_true, decide_eq_true_eq]
  refine ⟨⟨?_, ?_⟩, ?_⟩
  · rw [List.isPrefixOf_iff_prefix]
    exact ⟨pad3Chars n ++ ".md".data, by simp⟩
  · rw [List.isSuffixOf_iff_suffix]
    exact ⟨stem.data ++ tagChars is_final ++ pad3Chars n, by simp⟩
  · simp only [List.length_append]
    have := pad3Chars_length n
    omega

/-- Lookup misses exactly the absent keys. -/
theorem assocGet_eq_none_iff {α : Type} (l : List (String × α)) (k : String) :
    assocGet l k = none ↔ k ∉ l.map Prod.fst := by
  induction l with
  | nil => simp [assocGet]
  | cons p t ih =>
    obtain ⟨k', v'⟩ := p
    by_cases hk : k' = k
    · subst hk
      simp [assocGet]
    · simp only [assocGet, if_neg hk, List.map_cons, List.mem_cons]
      rw [ih]
      constructor
      · intro h hc
        rcases hc with hc | hc
        · exact hk hc.symm
        · exact h hc
      · intro h hc
        exact h (Or.inr hc)

/-- Appending one file changes a pattern's match count by one or zero. -/
theorem matchCount_append (stem : String) (is_final : Bool)
    (l : List (String × String)) (e : String × String) :
    matchCount stem is_final (l ++ [e]) =
      matchCount stem is_final l +
        (if globMatch (summaryGlobPre stem is_final) e.1 = true then 1 else 0) := by
  unfold matchCount
  rw [List.filter_append, List.length_append]
  by_cases hg : globMatch (summaryGlobPre stem is_final) e.1 = true
  · simp [List.filter, hg]
  · simp [List.filter, hg]

/-- The empty summaries directory satisfies the numbering invariant. -/
theorem numberingInv_nil : NumberingInv [] := by
  intro stem is_final n h
  simp at h

/-- Under the invariant, the next numbered name is fresh. -/
theorem numberingInv_fresh (sums : List (String × String)) (inv : NumberingInv sums)
    (stem : String) (is_final : Bool) :
    summaryFileName stem is_final (matchCount stem is_final sums + 1) ∉ sums.map Prod.fst := by
  intro hmem
  have := inv stem is_final _ hmem
  omega

/-- Writing the next numbered file preserves the numbering invariant. -/
theorem numberingInv_insert (sums : List (String × String)) (inv : NumberingInv sums)
    (stem : String) (is_final : Bool) (content : String) :
    NumberingInv (sums ++
      [(summaryFileName stem is_final (matchCount stem is_final sums + 1), content)]) := by
  intro stem' is_final' n' hmem
  rw [List.map_append] at hmem
  rcases List.mem_append.mp hmem with h1 | h1
  · have h2 := inv stem' is_final' n' h1
    rw [matchCount_append]
    split <;> omega
  · simp at h1
    obtain ⟨hs, ht, hn⟩ := summaryFileName_inj _ _ _ _ _ _ h1
    subst hs
    subst ht
    subst hn
    rw [matchCount_append, if_pos (globMatch_self _ _ _)]

/-- One nonempty `save_summary` appends the next numbered file (no existing
file is overwritten) and preserves the numbering invariant. -/
theorem save_summary_step (summary : String) (is_final : Bool) (pdf_name now : String)
    (fs : FS) (hs : summary ≠ "") (inv : NumberingInv fs.summaries) :
    (save_summary summary is_final pdf_name now fs).summaries =
      fs.summaries ++
        [(summaryFileName (pdfStem pdf_name) is_final
            (matchCount (pdfStem pdf_name) is_final fs.summaries + 1),
          markdownContent pdf_name now summary)] ∧
    NumberingInv (save_summary summary is_final pdf_name now fs).summaries := by
  have hfresh := numberingInv_fresh fs.summaries inv (pdfStem pdf_name) is_final
  have habs := (assocGet_eq_none_iff fs.summaries _).mpr hfresh
  unfold save_summary countMatching
  rw [if_neg hs]
  simp only
  rw [setEntry_of_absent _ _ _ habs]
  exact ⟨rfl, numberingInv_insert _ inv _ _ _⟩

/-- Any sequence of nonempty `save_summary` calls from an invariant state
creates one new file per call: nothing is overwritten or lost. -/
theorem saveRun_spec :
    ∀ ops fs, NumberingInv fs.summaries → (∀ op ∈ ops, op.summary ≠ "") →
    (saveRun ops fs).summaries.length = fs.summaries.length + ops.length ∧
    NumberingInv (saveRun ops fs).summaries := by
  intro ops
  induction ops with
  | nil => intro fs inv h; exact ⟨by simp [saveRun], inv⟩
  | cons op rest ih =>
    intro fs inv h
    have hop : op.summary ≠ "" := h op (by simp)
    obtain ⟨heq, hinv⟩ := save_summary_step op.summary op.is_final op.pdf_name op.now fs hop inv
    obtain ⟨hlen, hinv2⟩ :=
      ih (save_summary op.summary op.is_final op.pdf_name op.now fs) hinv
        (fun o ho => h o (by simp [ho]))
    refine ⟨?_, hinv2⟩
    unfold saveRun
    rw [hlen, heq]
    simp
    omega

/-- A successful association lookup returns a present binding. -/
theorem assocGet_mem {α : Type} (l : List (String × α)) (k : String) (v : α)
    (h : assocGet l k = some v) : (k, v) ∈ l := by
  induction l with
  | nil => simp [assocGet] at h
  | cons p t ih =>
    obtain ⟨k', v'⟩ := p
    by_cases hk : k' = k
    · simp [assocGet, hk] at h
      simp [hk, h]
    · simp [assocGet, hk] at h
      simp [ih h]

/-- Cleanliness only depends on the knowledge directory. -/
theorem cleanFS_of_knowledge_eq (fs1 fs2 : FS) (he : fs1.knowledge = fs2.knowledge)
    (h : cleanFS fs2) : cleanFS fs1 := fun p hp => h p (he ▸ hp)

/-- On a clean filesystem, loading a knowledge base always succeeds. -/
theorem load_clean (fs : FS) (pdf_name : String) (h : cleanFS fs) :
    ∃ kb, load_existing_knowledge fs pdf_name = .ok kb := by
  unfold load_existing_knowledge
  cases hx : assocGet fs.knowledge (knowledgePath pdf_name) with
  | none => exact ⟨[], rfl⟩
  | some entry =>
    obtain ⟨kb, hkb⟩ := h _ (assocGet_mem _ _ _ hx)
    have hkb2 : entry = KEntry.file (JValue.obj [("knowledge", JValue.arr kb)]) := hkb
    rw [hkb2]
    exact ⟨kb, by simp [assocGet]⟩

/-- `save_knowledge_base` preserves cleanliness. -/
theorem save_knowledge_base_clean (kb : List JValue) (pdf_name : String) (fs : FS)
    (h : cleanFS fs) : cleanFS (save_knowledge_base kb pdf_name fs) := by
  intro p hp
  rcases mem_setEntry _ _ _ _ hp with h1 | h1
  · exact ⟨kb, by rw [h1]⟩
  · exact h p h1

/-- A successful `process_page` preserves cleanliness. -/
theorem process_page_clean (gen : String → Except PyError String)
    (j : String → Except PyError JValue) (page_text : String)
    (cur : List JValue) (pdf_name : String) (fs : FS) (kb' : List JValue) (fs' : FS)
    (hok : process_page gen j page_text cur pdf_name fs = .ok (kb', fs'))
    (h : cleanFS fs) : cleanFS fs' := by
  rw [(process_page_ok_spec _ _ _ _ _ _ _ _ hok).1]
  exact save_knowledge_base_clean _ _ _ h

/-- A page step preserves cleanliness, whether or not it raises. -/
theorem pageStep_clean (gen : String → Except PyError String)
    (j : String → Except PyError JValue) (ai : Option Nat) (ptp : Nat)
    (pdf_name now pt : String) (i : Nat) (st : LoopSt) (h : cleanFS st.fs) :
    cleanFS (pageStep gen j ai ptp pdf_name now pt i st).1.fs := by
  unfold pageStep
  cases hp : process_page gen j pt st.kb pdf_name st.fs with
  | error e => exact h
  | ok pr =>
    obtain ⟨kb', fs'⟩ := pr
    have hfs' : cleanFS fs' := process_page_clean _ _ _ _ _ _ _ _ hp h
    simp only
    cases hi : intervalStep gen ai ptp pdf_name now i ⟨kb', fs', st.events⟩ with
    | mk st2 oe =>
      have hish := intervalStep_shape gen ai ptp pdf_name now i ⟨kb', fs', st.events⟩
      rw [hi] at hish
      have hst2 : cleanFS st2.fs := cleanFS_of_knowledge_eq _ _ hish.2 hfs'
      cases oe with
      | some e => exact hst2
      | none =>
        simp only
        have hfsh := finalStep_shape gen ptp pdf_name now i st2
        exact cleanFS_of_knowledge_eq _ _ hfsh.2 hst2

/-- The page loop preserves cleanliness, whether or not it stops early. -/
theorem runPages_clean (step : Nat → LoopSt → LoopSt × Option PyError)
    (hstep : ∀ i s, cleanFS s.fs → cleanFS (step i s).1.fs) :
    ∀ pages st, cleanFS st.fs → cleanFS (runPages step pages st).1.fs := by
  intro pages
  induction pages with
  | nil => intro st h; exact h
  | cons i rest ih =>
    intro st h
    unfold runPages
    cases hs : step i st with
    | mk s1 oe =>
      have h1 : cleanFS s1.fs := by
        have := hstep i st h
        rw [hs] at this
        exact this
      cases oe with
      | some e => exact h1
      | none => exact ih s1 h1

/-- On a clean filesystem, processing one document never escapes an
exception, and the resulting filesystem is clean again. -/
theorem processDoc_clean (gen : String → Except PyError String)
    (j : String → Except PyError JValue) (ai tp : Option Nat) (now : String)
    (doc : Doc) (fs : FS) (h : cleanFS fs) :
    ∃ fs' evs, processDoc gen j ai tp now doc fs = .ok (fs', evs) ∧ cleanFS fs' := by
  unfold processDoc
  obtain ⟨kb, hload⟩ := load_clean fs doc.name h
  rw [hload]
  cases doc.pages with
  | error e => exact ⟨fs, [], rfl, h⟩
  | ok pageTexts =>
    simp only
    refine ⟨_, _, rfl, ?_⟩
    exact runPages_clean _
      (fun i s hs => pageStep_clean gen j ai (tp.getD pageTexts.length)
        doc.name now (pageTexts.getD i "") i s hs) _ ⟨kb, fs, []⟩ h

/-- On a clean filesystem the whole document loop succeeds, processing every
document (per-document errors are caught inside). -/
theorem mainLoop_clean (gen : String → Except PyError String)
    (j : String → Except PyError JValue) (ai tp : Option Nat) (now : String) :
    ∀ docs fs, cleanFS fs →
    ∃ fsR results, mainLoop gen j ai tp now docs fs = .ok (fsR, results) ∧
      results.length = docs.length ∧ cleanFS fsR := by
  intro docs
  induction docs with
  | nil => intro fs h; exact ⟨fs, [], rfl, rfl, h⟩
  | cons doc rest ih =>
    intro fs h
    obtain ⟨fs1, evs, hdoc, h1⟩ := processDoc_clean gen j ai tp now doc fs h
    obtain ⟨fsR, results, hrest, hlen, hR⟩ := ih fs1 h1
    refine ⟨fsR, (doc.name, evs) :: results, ?_, by simp [hlen], hR⟩
    unfold mainLoop
    simp [hdoc, hrest]

/-- C9 (amended): exceptions raised inside a document's `try` block —
`fitz.open` failures and anything raised in the per-page loop, including
model-call and parse errors — are caught at the document-loop boundary and
the batch continues with the next document, so a batch whose knowledge
directory contains no stray subdirectories always completes with every
document accounted for. Exceptions from `load_existing_knowledge` are *not*
covered: that call runs before the `try` (this is the corrected part; see
the counterexample). -/
theorem document_errors_contained :
    ∀ gen json5_loads analysis_interval test_pages now docs fs,
    (∀ e ∈ fs.knowledge, e.2.isDir = false) →
    ∃ fsR results,
      mainRun gen json5_loads analysis_interval test_pages now docs fs
        = .ok (fsR, results) ∧ results.length = docs.length := by
  intro gen j ai tp now docs fs h
  unfold mainRun
  have hclean : cleanFS (setup_directories fs) := by
    intro p hp
    rw [setup_directories_clears fs h] at hp
    simp at hp
  obtain ⟨fsR, results, hrun, hlen, _⟩ := mainLoop_clean gen j ai tp now docs _ hclean
  exact ⟨fsR, results, hrun, hlen⟩

/-- Witness for C9's amended theorem: a batch of two documents, the first an
unreadable PDF (`fitz.open` raises), completes with both documents
accounted for. -/
theorem document_errors_contained_witness :
    ∃ fsR results,
      mainRun (constGen "x") (failParse (.jsonDecodeError "bad")) none none "now"
          [⟨"b.pdf", .error (.valueError "cannot open broken document")⟩,
           ⟨"c.pdf", .ok ["page"]⟩] ⟨[], []⟩
        = .ok (fsR, results) ∧ results.length = 2 :=
  document_errors_contained (constGen "x") (failParse (.jsonDecodeError "bad"))
    none none "now"
    [⟨"b.pdf", .error (.valueError "cannot open broken document")⟩,
     ⟨"c.pdf", .ok ["page"]⟩] ⟨[], []⟩ (by simp)

/-- C9 (counterexample): an error raised while loading a document's
knowledge base is *not* caught at the document-loop boundary.
`load_existing_knowledge` runs before the `try` block, so its exceptions
abort the whole batch. Concretely: a stray subdirectory named
`b_knowledge.json` survives `setup_directories` (which unlinks only files);
`open()` on it raises `IsADirectoryError`; the run returns that error and
the second document is never processed — the claim says the error would be
logged and the batch would continue. -/
theorem load_error_aborts_batch_cex :
    mainRun (constGen "x") (failParse (.jsonDecodeError "bad")) none none "now"
        [⟨"b.pdf", .ok ["page"]⟩, ⟨"c.pdf", .ok ["page"]⟩]
        ⟨[("b_knowledge.json", .directory)], []⟩
      = .error (.isADirectoryError "b_knowledge.json") := rfl

set_option maxHeartbeats 1000000 in
/-- C8: the summary writer's numbering. (1) A nonempty save writes to the
path numbered count-of-matching-files + 1 (counting the per-document
interval or final glob pattern). (2) In one run — which starts after
`setup_directories` emptied the summaries directory — every nonempty save
creates exactly one new file, so no existing numbered file is ever
overwritten, whatever mix of documents and tags is saved. (3) In the claim's
scenario, three interval saves for one document in one run yield files
`_interval_001/002/003.md`, with no collision even though a prior run had
already produced numbered files (the run starts by unlinking them). -/
theorem summary_numbering :
    (∀ summary is_final pdf_name now fs, summary ≠ "" →
      (save_summary summary is_final pdf_name now fs).summaries =
        setEntry fs.summaries
          (summaryFileName (pdfStem pdf_name) is_final
            (countMatching (pdfStem pdf_name) is_final fs + 1))
          (markdownContent pdf_name now summary)) ∧
    (∀ ops fs0, (∀ op ∈ ops, op.summary ≠ "") →
      (saveRun ops (setup_directories fs0)).summaries.length = ops.length) ∧
    (saveRun [⟨"b.pdf", false, "s1", "t1"⟩, ⟨"b.pdf", false, "s2", "t2"⟩,
              ⟨"b.pdf", false, "s3", "t3"⟩]
        (setup_directories ⟨[], [("b_interval_001.md", "old"), ("b_interval_002.md", "old")]⟩)
      ).summaries.map Prod.fst =
      ["b_interval_001.md", "b_interval_002.md", "b_interval_003.md"] := by
  refine ⟨?_, ?_, by decide⟩
  · intro summary is_final pdf_name now fs hs
    unfold save_summary
    rw [if_neg hs]
  · intro ops fs0 h
    have h0 : (setup_directories fs0).summaries = [] := rfl
    have inv : NumberingInv (setup_directories fs0).summaries := by
      rw [h0]
      exact numberingInv_nil
    have := (saveRun_spec ops (setup_directories fs0) inv h).1
    rw [h0] at this
    simpa using this

/-- Witness for C8: a concrete nonempty save takes the numbered path, and a
concrete two-save run from a freshly set-up directory (which had a leftover
numbered file from a prior run) creates exactly two files. -/
theorem summary_numbering_witness :
    (save_summary "s" true "b.pdf" "t" ⟨[], []⟩).summaries =
      setEntry ([] : List (String × String))
        (summaryFileName (pdfStem "b.pdf") true
          (countMatching (pdfStem "b.pdf") true ⟨[], []⟩ + 1))
        (markdownContent "b.pdf" "t" "s") ∧
    (saveRun [⟨"b.pdf", false, "s1", "t"⟩, ⟨"c.pdf", true, "s2", "t"⟩]
        (setup_directories ⟨[], [("old_interval_001.md", "x")]⟩)).summaries.length = 2 :=
  ⟨summary_numbering.1 "s" true "b.pdf" "t" ⟨[], []⟩ (by decide),
   summary_numbering.2.1 [⟨"b.pdf", false, "s1", "t"⟩, ⟨"c.pdf", true, "s2", "t"⟩]
     ⟨[], [("old_interval_001.md", "x")]⟩ (by decide)⟩

/-- C6: `analyze_knowledge_base` on an empty knowledge list issues no model
call (`0` calls) and returns the empty string, for every possible model
behaviour; and `save_summary` given the empty summary string leaves the
filesystem untouched (no file is created). -/
theorem empty_analysis_and_empty_summary_skip :
    (∀ gen pdf_name, analyze_knowledge_base gen [] pdf_name = .ok (0, "")) ∧
    (∀ is_final pdf_name now fs, save_summary "" is_final pdf_name now fs = fs) :=
  ⟨fun _ _ => rfl, fun _ _ _ _ => rfl⟩

/-- C2 (code bug): on a page whose model response `json5.loads` cannot parse,
the exception escapes `process_page`. `json5.loads` signals parse failure
with a `ValueError` (`json5.lib.JSON5DecodeError` subclasses `ValueError`,
not `json.JSONDecodeError`), but the `try` block's only handler is
`except json.JSONDecodeError`, so the error propagates out of `process_page`
(aborting the document's page loop) instead of leaving the knowledge base
unchanged. Here the model answers `"hello"`, which is not JSON-like, and the
parser raises accordingly; the second conjunct records that the script's
handler does not catch this exception class. -/
theorem unparsable_response_raises :
    process_page (constGen "hello") (failParse (.valueError "No viable match"))
        "page text" [] "b.pdf" ⟨[], []⟩
      = .error (.valueError "No viable match") ∧
    PyError.caughtByJsonDecodeHandler (.valueError "No viable match") = false :=
  ⟨rfl, rfl⟩

/-- C7 (counterexample): a model-request failure during summarization whose
exception is not a `ValueError` — e.g. a `google.api_core` transport error
such as 503 — propagates out of `analyze_knowledge_base` rather than being
turned into the empty string: the `try` there catches `ValueError` only.
The second conjunct records that this exception class is outside the
handler's reach. -/
theorem summarize_error_propagates_cex :
    analyze_knowledge_base (failGen (.apiError "503 Service Unavailable"))
        [.str "a"] "b.pdf"
      = .error (.apiError "503 Service Unavailable") ∧
    PyError.isValueErrorClass (.apiError "503 Service Unavailable") = false :=
  ⟨rfl, rfl⟩

/-- C7 (amended): when the model request during summarization fails, the
summarizer returns the empty string exactly when the raised exception is of
class `ValueError` (e.g. a blocked response); any other exception class
propagates to the document-loop handler. -/
theorem summarize_failure_policy :
    ∀ gen (knowledge_base : List JValue) pdf_name e,
    knowledge_base ≠ [] →
    gen (summaryPrompt knowledge_base) = .error e →
    analyze_knowledge_base gen knowledge_base pdf_name =
      (if e.isValueErrorClass then .ok (1, "") else .error e) := by
  intro gen kb pdf e hne hg
  cases kb with
  | nil => exact absurd rfl hne
  | cons x xs => simp [analyze_knowledge_base, hg]

/-- Witness for C7's amended theorem: a blocked-response `ValueError` at a
concrete nonempty knowledge list yields `(1, "")`. -/
theorem summarize_failure_policy_witness :
    analyze_knowledge_base (failGen (.valueError "response blocked"))
      [.str "a"] "b.pdf" = .ok (1, "") := by
  have h := summarize_failure_policy (failGen (.valueError "response blocked"))
    [.str "a"] "b.pdf" (.valueError "response blocked") (by simp) rfl
  simpa using h

/-- C10: whenever `process_page` returns (rather than raising), the returned
knowledge list extends the input list: the input is a prefix of the result
(existing items are never modified, removed, or reordered; new items are
appended at the end, so the length can only grow). -/
theorem process_page_appends :
    ∀ gen json5_loads page_text current_knowledge pdf_name fs kb' fs',
    process_page gen json5_loads page_text current_knowledge pdf_name fs = .ok (kb', fs') →
    current_knowledge <+: kb' := by
  intro gen j pt cur name fs kb' fs' h
  unfold process_page at h
  cases hg : gen (pagePrompt pt) with
  | error e => rw [hg] at h; exact absurd h (by simp)
  | ok rt =>
    rw [hg] at h
    simp only at h
    cases hp : j (stripFences rt) with
    | error e =>
      rw [hp] at h
      by_cases hc : e.caughtByJsonDecodeHandler = true
      · simp [hc] at h
        exact h.1 ▸ List.prefix_refl _
      · simp [hc] at h
    | ok result =>
      rw [hp] at h
      cases result with
      | obj fields =>
        simp only at h
        by_cases ht : pyTruthy (dictGet fields "has_content" (.bool false)) = true
        · rw [if_pos ht] at h
          cases hk : dictGet fields "knowledge" (.arr []) with
          | arr items =>
            rw [hk] at h
            simp at h
            exact h.1 ▸ List.prefix_append _ _
          | null => rw [hk] at h; exact absurd h (by simp)
          | bool b => rw [hk] at h; exact absurd h (by simp)
          | num n => rw [hk] at h; exact absurd h (by simp)
          | str s => rw [hk] at h; exact absurd h (by simp)
          | obj f => rw [hk] at h; exact absurd h (by simp)
        · rw [if_neg ht] at h
          simp at h
          exact h.1 ▸ List.prefix_refl _
      | null => exact absurd h (by simp)
      | bool b => exact absurd h (by simp)
      | num n => exact absurd h (by simp)
      | str s => exact absurd h (by simp)
      | arr xs => exact absurd h (by simp)

/-- Witness for C10 at a concrete page: the model reports one new knowledge
point, and the input `["a"]` is a prefix of the output `["a", "b"]`. -/
theorem process_page_appends_witness : [JValue.str "a"] <+: [JValue.str "a", JValue.str "b"] :=
  process_page_appends (constGen "x")
    (constParse (.obj [("has_content", .bool true), ("knowledge", .arr [.str "b"])]))
    "p" [.str "a"] "b.pdf" ⟨[], []⟩
    [JValue.str "a", JValue.str "b"]
    ⟨[("b_knowledge.json", .file (.obj [("knowledge", .arr [.str "a", .str "b"])]))], []⟩
    rfl

/-- C5: on a page whose parsed response is an object whose `has_content`
value is falsy (in particular `false`), `process_page` returns the input
knowledge list itself — unchanged length, no items appended — and still
persists that unchanged list to the knowledge file. -/
theorem no_content_preserves_kb :
    ∀ gen json5_loads page_text current_knowledge pdf_name fs responseText fields,
    gen (pagePrompt page_text) = .ok responseText →
    json5_loads (stripFences responseText) = .ok (.obj fields) →
    pyTruthy (dictGet fields "has_content" (.bool false)) = false →
    process_page gen json5_loads page_text current_knowledge pdf_name fs =
      .ok (current_knowledge, save_knowledge_base current_knowledge pdf_name fs) := by
  intro gen j pt cur name fs rt fields hg hp hc
  unfold process_page
  rw [hg]
  simp only
  rw [hp]
  simp [hc]

/-- Witness for C5: a concrete `has_content: false` response leaves the
one-item knowledge base as is and writes it back to the knowledge file. -/
theorem no_content_preserves_kb_witness :
    process_page (constGen "x")
        (constParse (.obj [("has_content", .bool false), ("knowledge", .arr [])]))
        "p" [.str "a"] "b.pdf" ⟨[], []⟩ =
      .ok ([.str "a"], save_knowledge_base [.str "a"] "b.pdf" ⟨[], []⟩) :=
  no_content_preserves_kb (constGen "x")
    (constParse (.obj [("has_content", .bool false), ("knowledge", .arr [])]))
    "p" [.str "a"] "b.pdf" ⟨[], []⟩ "x"
    [("has_content", .bool false), ("knowledge", .arr [])]
    rfl rfl rfl

end ReadBooks
